import Mathlib

/-!
# Verification of the `read_iter` crate

The crate wraps any `std::io::Read` implementor in a `ReadIter<T>` that also
implements `Iterator<Item=u8>` (byte-at-a-time production) and `io::BufRead`
(peek/consume), sharing one fixed 4096-byte buffer, a `len`/`i` pair and a
stored `err`.

Embedding conventions:
* the generic reader `T : io::Read` becomes a state type `σ` together with a
  read function `rd : σ → Nat → Except Nat (List Nat) × σ` (argument: the size
  of the destination buffer; result: the bytes actually read, `[]` meaning end
  of stream, or an I/O error carried as an opaque `Nat` code);
* bytes are `Nat`, the `[u8; 4096]` array is a `List Nat` of length 4096;
* each Rust method becomes a pure function threading the `ReadIter` state;
* the slice `&buffer[i .. i+len]` taken by `fill_buf` is modelled by a
  `FillResult` whose `oob` constructor stands for the bounds-check panic.
-/

def BUFFER_SIZE : Nat := 4 * 1024

/-- A reader state type together with its `read` operation: from a reader
state and the length of the destination buffer, produce either the bytes read
(at most that many; `[]` means end of stream) or an error, plus the reader's
next state.  This is the shape of `std::io::Read::read`. -/
abbrev ReadFn (σ : Type) : Type := σ → Nat → Except Nat (List Nat) × σ

/-- The state of `ReadIter<T>`: wrapped reader, sticky error, internal
buffer, number `len` of valid bytes and read position `i`. -/
structure ReadIter (σ : Type) where
  reader : σ
  err : Option Nat
  buffer : List Nat
  len : Nat
  i : Nat
  deriving DecidableEq

/-- `ReadIter::new`: zero-filled buffer, `len = 0`, `i = 0`, no error. -/
def ReadIter.new {σ : Type} (reader : σ) : ReadIter σ :=
  { reader := reader, err := none, buffer := List.replicate BUFFER_SIZE 0,
    len := 0, i := 0 }

/-- `ReadIter::last_error`: the stored error, not cleared. -/
def ReadIter.last_error {σ : Type} (s : ReadIter σ) : Option Nat :=
  s.err

/-- `ReadIter::take_last_error`: `Err` carrying the stored error (clearing
it), or `Ok(())` when none is stored. -/
def ReadIter.take_last_error {σ : Type} (s : ReadIter σ) : Except Nat Unit × ReadIter σ :=
  match s.err with
  | some e => (Except.error e, { s with err := none })
  | none => (Except.ok (), s)

/-- Effect of `reader.read(&mut self.buffer)` on the array: the `d.length`
bytes read overwrite the front, the tail keeps its old content. -/
def writeBuf (buffer d : List Nat) : List Nat :=
  d ++ buffer.drop d.length

/-- `<&mut ReadIter as Iterator>::next`.  If `i < len`, yield `buffer[i]` and
bump `i`; otherwise read from the source into the buffer: an error is stored
in `err` and `None` is returned, `Ok(0)` returns `None`, and `Ok(n)` sets
`len = n`, `i = 1` and yields the new `buffer[0]`. -/
def ReadIter.next {σ : Type} (rd : ReadFn σ) (s : ReadIter σ) : Option Nat × ReadIter σ :=
  if s.i < s.len then
    (some (s.buffer.getD s.i 0), { s with i := s.i + 1 })
  else
    match rd s.reader BUFFER_SIZE with
    | (Except.error e, r) => (none, { s with reader := r, err := some e })
    | (Except.ok d, r) =>
      if d.length = 0 then
        (none, { s with reader := r })
      else
        (some ((writeBuf s.buffer d).getD 0 0),
         { s with reader := r, buffer := writeBuf s.buffer d, len := d.length, i := 1 })

/-- `<ReadIter as io::Read>::read` with a destination buffer of length
`bufLen`: if `i < len`, copy `min bufLen (len - i)` bytes out of the internal
buffer and advance `i`; otherwise delegate a single read directly to the
source, leaving `buffer`, `len`, `i` and `err` untouched. -/
def ReadIter.read {σ : Type} (rd : ReadFn σ) (s : ReadIter σ) (bufLen : Nat) :
    Except Nat (List Nat) × ReadIter σ :=
  if s.i < s.len then
    (Except.ok ((s.buffer.drop s.i).take (min bufLen (s.len - s.i))),
     { s with i := s.i + min bufLen (s.len - s.i) })
  else
    ((rd s.reader bufLen).1, { s with reader := (rd s.reader bufLen).2 })

/-- Result of `fill_buf`: a view of the buffer, a propagated I/O error, or
`oob` — the panic of the slice `&buffer[i .. i+len]` when `i + len` exceeds
the array length. -/
inductive FillResult where
  | ok (view : List Nat)
  | err (e : Nat)
  | oob
  deriving DecidableEq

/-- The slice expression `&self.buffer[self.i .. self.i + self.len]` at the
end of `fill_buf`: the elements at positions `i, …, i+len-1` when
`i + len ≤ buffer.length`, and the out-of-bounds panic otherwise. -/
def ReadIter.view {σ : Type} (s : ReadIter σ) : FillResult :=
  if s.i + s.len ≤ s.buffer.length then
    FillResult.ok ((s.buffer.drop s.i).take s.len)
  else
    FillResult.oob

/-- `<ReadIter as io::BufRead>::fill_buf`: if `i ≥ len`, read once from the
source into the buffer (propagating an error directly, without storing it)
and set `len` to the count and `i = 0`; then return the slice
`&buffer[i .. i+len]`. -/
def ReadIter.fill_buf {σ : Type} (rd : ReadFn σ) (s : ReadIter σ) : FillResult × ReadIter σ :=
  if s.i ≥ s.len then
    match rd s.reader BUFFER_SIZE with
    | (Except.error e, r) => (FillResult.err e, { s with reader := r })
    | (Except.ok d, r) =>
      let s1 : ReadIter σ :=
        { s with reader := r, buffer := writeBuf s.buffer d, len := d.length, i := 0 }
      (s1.view, s1)
  else
    (s.view, s)

/-- `<ReadIter as io::BufRead>::consume`: `i += amt`, no bounds check. -/
def ReadIter.consume {σ : Type} (s : ReadIter σ) (amt : Nat) : ReadIter σ :=
  { s with i := s.i + amt }

/-- The unread buffered bytes: `buffer[i .. len]` (empty when `i ≥ len`). -/
def ReadIter.unread {σ : Type} (s : ReadIter σ) : List Nat :=
  (s.buffer.drop s.i).take (s.len - s.i)

/-! ## Concrete sources used to instantiate the generic reader -/

/-- A well-behaved source delivering the byte sequence `data` in an arbitrary
chunking: at its `n`-th call it hands out `f n` bytes, clamped to at least 1
and to at most both the destination size and the bytes remaining; once `data`
is exhausted it reports end of stream forever.  Every chunking of `data` is
realised by some `f`. -/
structure OracleSrc where
  data : List Nat
  n : Nat
  f : Nat → Nat

/-- The read operation of `OracleSrc`. -/
def oracleRead : ReadFn OracleSrc := fun src cap =>
  match src.data with
  | [] => (Except.ok [], ⟨[], src.n + 1, src.f⟩)
  | a :: l =>
    (Except.ok ((a :: l).take (min (Nat.max (src.f src.n) 1) (min cap (a :: l).length))),
     ⟨(a :: l).drop (min (Nat.max (src.f src.n) 1) (min cap (a :: l).length)),
      src.n + 1, src.f⟩)

/-- One pre-scripted outcome of a source read call. -/
inductive SrcOutcome where
  | ok (d : List Nat)
  | err (e : Nat)
  deriving DecidableEq

/-- A source that plays back a fixed script of outcomes, one per read call
(delivered bytes clamped to the destination size); after the script is
exhausted it reports end of stream. -/
structure ScriptSrc where
  script : List SrcOutcome
  deriving DecidableEq

/-- The read operation of `ScriptSrc`. -/
def scriptRead : ReadFn ScriptSrc := fun src cap =>
  match src.script with
  | [] => (Except.ok [], ⟨[]⟩)
  | SrcOutcome.ok d :: rest => (Except.ok (d.take cap), ⟨rest⟩)
  | SrcOutcome.err e :: rest => (Except.error e, ⟨rest⟩)

/-- A source that is permanently at end of stream. -/
def endRead : ReadFn Unit := fun u _ => (Except.ok [], u)

/-! ## Drivers: iteration loops over the operations -/

/-- Drive the byte iterator at most `fuel` steps, collecting the yielded
bytes; the boolean records whether a `none` was reached (the iteration
terminated by itself) within the fuel. -/
def drive {σ : Type} (rd : ReadFn σ) : Nat → ReadIter σ → List Nat × ReadIter σ × Bool
  | 0, s => ([], s, false)
  | fuel + 1, s =>
    match ReadIter.next rd s with
    | (none, s1) => ([], s1, true)
    | (some b, s1) =>
      ((b :: (drive rd fuel s1).1), (drive rd fuel s1).2.1, (drive rd fuel s1).2.2)

/-- Apply `next` `n` times, keeping only the final state. -/
def iterSkip {σ : Type} (rd : ReadFn σ) : Nat → ReadIter σ → ReadIter σ
  | 0, s => s
  | n + 1, s => iterSkip rd n (ReadIter.next rd s).2

/-- Call `read` repeatedly (call `j` with a destination buffer of length
`sizes j`), concatenating the returned bytes, until a call returns no bytes;
the boolean records that the loop did stop on a zero-byte result within the
fuel (an error also stops it, with `false`). -/
def readLoop {σ : Type} (rd : ReadFn σ) (sizes : Nat → Nat) :
    Nat → Nat → ReadIter σ → List Nat × ReadIter σ × Bool
  | _, 0, s => ([], s, false)
  | idx, fuel + 1, s =>
    match ReadIter.read rd s (sizes idx) with
    | (Except.error _, s1) => ([], s1, false)
    | (Except.ok d, s1) =>
      if d.length = 0 then
        ([], s1, true)
      else
        ((d ++ (readLoop rd sizes (idx + 1) fuel s1).1),
         (readLoop rd sizes (idx + 1) fuel s1).2.1,
         (readLoop rd sizes (idx + 1) fuel s1).2.2)

/-- `i ≤ len ≤ BUFFER_SIZE`: the documented state invariant. -/
def ReadIter.Inv {σ : Type} (s : ReadIter σ) : Prop :=
  s.i ≤ s.len ∧ s.len ≤ BUFFER_SIZE

/-- A reader respecting the `io::Read` contract: it never returns more bytes
than the destination buffer holds. -/
def ReadBounded {σ : Type} (rd : ReadFn σ) : Prop :=
  ∀ r cap d, ((rd r cap).1 = Except.ok d) → d.length ≤ cap

/-- A reader that persistently reports end of stream or failure. -/
def StickySource {σ : Type} (rd : ReadFn σ) : Prop :=
  ∀ r cap, (rd r cap).1 = Except.ok [] ∨ ∃ e, (rd r cap).1 = Except.error e

/-! ## Unfolding lemmas for the operations -/

theorem next_lt {σ : Type} (rd : ReadFn σ) (s : ReadIter σ) (h : s.i < s.len) :
    ReadIter.next rd s = (some (s.buffer.getD s.i 0), { s with i := s.i + 1 }) := by
  unfold ReadIter.next
  rw [if_pos h]

theorem next_ge_err {σ : Type} (rd : ReadFn σ) (s : ReadIter σ) (e : Nat) (r : σ)
    (h : s.len ≤ s.i) (hrd : rd s.reader BUFFER_SIZE = (Except.error e, r)) :
    ReadIter.next rd s = (none, { s with reader := r, err := some e }) := by
  unfold ReadIter.next
  rw [if_neg (Nat.not_lt.mpr h), hrd]

theorem next_ge_ok {σ : Type} (rd : ReadFn σ) (s : ReadIter σ) (d : List Nat) (r : σ)
    (h : s.len ≤ s.i) (hrd : rd s.reader BUFFER_SIZE = (Except.ok d, r)) :
    ReadIter.next rd s =
      if d.length = 0 then
        (none, { s with reader := r })
      else
        (some ((writeBuf s.buffer d).getD 0 0),
         { s with reader := r, buffer := writeBuf s.buffer d, len := d.length, i := 1 }) := by
  unfold ReadIter.next
  rw [if_neg (Nat.not_lt.mpr h), hrd]

theorem read_lt {σ : Type} (rd : ReadFn σ) (s : ReadIter σ) (bufLen : Nat) (h : s.i < s.len) :
    ReadIter.read rd s bufLen =
      (Except.ok ((s.buffer.drop s.i).take (min bufLen (s.len - s.i))),
       { s with i := s.i + min bufLen (s.len - s.i) }) := by
  unfold ReadIter.read
  rw [if_pos h]

theorem read_ge {σ : Type} (rd : ReadFn σ) (s : ReadIter σ) (bufLen : Nat) (h : s.len ≤ s.i) :
    ReadIter.read rd s bufLen =
      ((rd s.reader bufLen).1, { s with reader := (rd s.reader bufLen).2 }) := by
  unfold ReadIter.read
  rw [if_neg (Nat.not_lt.mpr h)]

theorem fill_buf_lt {σ : Type} (rd : ReadFn σ) (s : ReadIter σ) (h : s.i < s.len) :
    ReadIter.fill_buf rd s = (s.view, s) := by
  unfold ReadIter.fill_buf
  rw [if_neg (Nat.not_le.mpr h)]

theorem fill_buf_ge_err {σ : Type} (rd : ReadFn σ) (s : ReadIter σ) (e : Nat) (r : σ)
    (h : s.len ≤ s.i) (hrd : rd s.reader BUFFER_SIZE = (Except.error e, r)) :
    ReadIter.fill_buf rd s = (FillResult.err e, { s with reader := r }) := by
  unfold ReadIter.fill_buf
  rw [if_pos h, hrd]

theorem fill_buf_ge_ok {σ : Type} (rd : ReadFn σ) (s : ReadIter σ) (d : List Nat) (r : σ)
    (h : s.len ≤ s.i) (hrd : rd s.reader BUFFER_SIZE = (Except.ok d, r)) :
    ReadIter.fill_buf rd s =
      (ReadIter.view
        { s with reader := r, buffer := writeBuf s.buffer d, len := d.length, i := 0 },
       { s with reader := r, buffer := writeBuf s.buffer d, len := d.length, i := 0 }) := by
  unfold ReadIter.fill_buf
  rw [if_pos h, hrd]

/-! ## Generic facts shared by several claims -/

theorem scriptRead_bounded : ReadBounded scriptRead := by
  intro r cap d h
  rcases r with ⟨script⟩
  cases script with
  | nil =>
    simp [scriptRead] at h
    simp [h]
  | cons item rest =>
    cases item with
    | ok d0 =>
      simp [scriptRead] at h
      rw [← h, List.length_take]
      exact Nat.min_le_left _ _
    | err e =>
      simp [scriptRead] at h

theorem next_sticky_step {σ : Type} (rd : ReadFn σ) (hS : StickySource rd)
    (s : ReadIter σ) (h : s.len ≤ s.i) :
    (ReadIter.next rd s).1 = none ∧ (ReadIter.next rd s).2.len ≤ (ReadIter.next rd s).2.i := by
  rcases hrd : rd s.reader BUFFER_SIZE with ⟨res, r⟩
  rcases hS s.reader BUFFER_SIZE with h0 | ⟨e, he⟩
  · have h0' : res = Except.ok [] := by rw [hrd] at h0; exact h0
    subst h0'
    rw [next_ge_ok rd s [] r h hrd]
    exact ⟨rfl, h⟩
  · have he' : res = Except.error e := by rw [hrd] at he; exact he
    subst he'
    rw [next_ge_err rd s e r h hrd]
    exact ⟨rfl, h⟩

/-! ## Claims -/

/-- C7: `read` has exactly two branches.  When `i < len` it returns
`min bufLen (len - i)` bytes copied out of `buffer[i ..]`, advances `i` by
that count and touches nothing else (in particular no source I/O: `reader` is
unchanged in the returned state).  When `i ≥ len` it issues exactly one source
read with the caller's buffer, returns its result unmodified, and leaves
`buffer`, `len`, `i` and `err` all unchanged. -/
theorem c7_read_two_branches {σ : Type} (rd : ReadFn σ) (s : ReadIter σ) (bufLen : Nat) :
    (s.i < s.len →
      ReadIter.read rd s bufLen =
        (Except.ok ((s.buffer.drop s.i).take (min bufLen (s.len - s.i))),
         { s with i := s.i + min bufLen (s.len - s.i) })) ∧
    (s.len ≤ s.i →
      ReadIter.read rd s bufLen =
        ((rd s.reader bufLen).1, { s with reader := (rd s.reader bufLen).2 })) :=
  ⟨fun h => read_lt rd s bufLen h, fun h => read_ge rd s bufLen h⟩

theorem c7_witness :
    ReadIter.read scriptRead (⟨⟨[]⟩, none, [10, 20, 30], 3, 1⟩ : ReadIter ScriptSrc) 5 =
      (Except.ok [20, 30], ⟨⟨[]⟩, none, [10, 20, 30], 3, 3⟩) ∧
    ReadIter.read scriptRead (⟨⟨[SrcOutcome.err 4]⟩, none, [10, 20, 30], 3, 3⟩ : ReadIter ScriptSrc) 5 =
      (Except.error 4, ⟨⟨[]⟩, none, [10, 20, 30], 3, 3⟩) :=
  ⟨(c7_read_two_branches scriptRead ⟨⟨[]⟩, none, [10, 20, 30], 3, 1⟩ 5).1 (by decide),
   (c7_read_two_branches scriptRead ⟨⟨[SrcOutcome.err 4]⟩, none, [10, 20, 30], 3, 3⟩ 5).2 (by decide)⟩

/-- C8: when the single source read performed by `fill_buf` fails, the error
is returned directly to the caller, is not stored into `err`, and `i`, `len`,
`buffer` and `err` are all unchanged (only the reader advanced). -/
theorem c8_fill_buf_error_synchronous {σ : Type} (rd : ReadFn σ) (s : ReadIter σ)
    (e : Nat) (r : σ) (h : s.len ≤ s.i)
    (hrd : rd s.reader BUFFER_SIZE = (Except.error e, r)) :
    ReadIter.fill_buf rd s = (FillResult.err e, { s with reader := r }) :=
  fill_buf_ge_err rd s e r h hrd

theorem c8_witness :
    ReadIter.fill_buf scriptRead (⟨⟨[SrcOutcome.err 3]⟩, none, [9], 0, 0⟩ : ReadIter ScriptSrc) =
      (FillResult.err 3, ⟨⟨[]⟩, none, [9], 0, 0⟩) :=
  c8_fill_buf_error_synchronous scriptRead ⟨⟨[SrcOutcome.err 3]⟩, none, [9], 0, 0⟩ 3 ⟨[]⟩
    (Nat.le_refl 0) rfl

/-- C3: when the buffer is exhausted and the source read fails with `e`, the
iterator's `next` returns `none`, `take_last_error` then returns the failure
carrying `e`, and a second `take_last_error` returns success. -/
theorem c3_error_reported_via_take_last_error {σ : Type} (rd : ReadFn σ) (s : ReadIter σ)
    (e : Nat) (h : s.len ≤ s.i) (herr : (rd s.reader BUFFER_SIZE).1 = Except.error e) :
    (ReadIter.next rd s).1 = none ∧
    (ReadIter.take_last_error (ReadIter.next rd s).2).1 = Except.error e ∧
    (ReadIter.take_last_error (ReadIter.take_last_error (ReadIter.next rd s).2).2).1 =
      Except.ok () := by
  rcases hrd : rd s.reader BUFFER_SIZE with ⟨res, r⟩
  rw [hrd] at herr
  have herr' : res = Except.error e := herr
  subst herr'
  rw [next_ge_err rd s e r h hrd]
  simp [ReadIter.take_last_error]

theorem c3_witness :
    (ReadIter.next scriptRead (⟨⟨[SrcOutcome.err 7]⟩, none, [9], 0, 0⟩ : ReadIter ScriptSrc)).1 = none ∧
    (ReadIter.take_last_error
      (ReadIter.next scriptRead (⟨⟨[SrcOutcome.err 7]⟩, none, [9], 0, 0⟩ : ReadIter ScriptSrc)).2).1 =
      Except.error 7 ∧
    (ReadIter.take_last_error
      (ReadIter.take_last_error
        (ReadIter.next scriptRead (⟨⟨[SrcOutcome.err 7]⟩, none, [9], 0, 0⟩ : ReadIter ScriptSrc)).2).2).1 =
      Except.ok () :=
  c3_error_reported_via_take_last_error scriptRead ⟨⟨[SrcOutcome.err 7]⟩, none, [9], 0, 0⟩ 7
    (Nat.le_refl 0) rfl

/-- C6 counterexample: the terminal condition is not sticky.  With a source
that first reports end of stream and then delivers a byte, the first `next`
returns `none`, but the very next call to `next` — with no intervening
buffered read — re-reads the source and yields `some 5`. -/
theorem c6_counterexample :
    (ReadIter.next scriptRead
      (ReadIter.new (⟨[SrcOutcome.ok [], SrcOutcome.ok [5]]⟩ : ScriptSrc))).1 = none ∧
    (ReadIter.next scriptRead
      (ReadIter.next scriptRead
        (ReadIter.new (⟨[SrcOutcome.ok [], SrcOutcome.ok [5]]⟩ : ScriptSrc))).2).1 = some 5 :=
  ⟨rfl, rfl⟩

/-- C6 (amended): after the source reports zero bytes or an error, `next`
returns `none` for that call and leaves `i`/`len` unchanged, but each
subsequent call performs a fresh source read; `none` persists only while the
source keeps reporting end of stream or failure.  In particular, over a
source that persistently reports end of stream or failure, every later call
to `next` returns `none`. -/
theorem c6_sticky_only_for_persistent_end {σ : Type} (rd : ReadFn σ)
    (hS : StickySource rd) (s : ReadIter σ) (h : s.len ≤ s.i) (n : Nat) :
    (ReadIter.next rd (iterSkip rd n s)).1 = none := by
  induction n generalizing s with
  | zero => exact (next_sticky_step rd hS s h).1
  | succ n ih =>
    have hstep := next_sticky_step rd hS s h
    exact ih (ReadIter.next rd s).2 hstep.2

theorem c6_witness :
    (ReadIter.next endRead (iterSkip endRead 2 (ReadIter.new ()))).1 = none :=
  c6_sticky_only_for_persistent_end endRead (fun _ _ => Or.inl rfl) (ReadIter.new ())
    (Nat.le_refl 0) 2

/-- C9 counterexample: a stored error is overwritten while still unread.
With a source that fails first with error 1 and then with error 2, the first
`next` stores `some 1` and the second `next` — with no `take_last_error` in
between — replaces it by `some 2`. -/
theorem c9_counterexample :
    ((ReadIter.next scriptRead
      (ReadIter.new (⟨[SrcOutcome.err 1, SrcOutcome.err 2]⟩ : ScriptSrc))).2.err = some 1) ∧
    ((ReadIter.next scriptRead
      (ReadIter.next scriptRead
        (ReadIter.new (⟨[SrcOutcome.err 1, SrcOutcome.err 2]⟩ : ScriptSrc))).2).2.err = some 2) :=
  ⟨rfl, rfl⟩

/-- C9 (amended): `err` is set only by a failed source read on the
byte-at-a-time path — `read`, `fill_buf` and `consume` never change it, and
`take_last_error` only clears it; when a failed byte-at-a-time read attempt
happens while an error is already held, the stored error is overwritten by
the newer one (it becomes `some e` for the new failure `e`); after
`take_last_error` the state holds no error, so a subsequent failure can be
recorded. -/
theorem c9_error_lifecycle {σ : Type} (rd : ReadFn σ) :
    (∀ (s : ReadIter σ) (bufLen : Nat), (ReadIter.read rd s bufLen).2.err = s.err) ∧
    (∀ s : ReadIter σ, (ReadIter.fill_buf rd s).2.err = s.err) ∧
    (∀ (s : ReadIter σ) (amt : Nat), (ReadIter.consume s amt).err = s.err) ∧
    (∀ s : ReadIter σ, (ReadIter.take_last_error s).2.err = none) ∧
    (∀ s : ReadIter σ,
      (ReadIter.next rd s).2.err = s.err ∨
      ∃ e, s.len ≤ s.i ∧ (rd s.reader BUFFER_SIZE).1 = Except.error e ∧
        (ReadIter.next rd s).2.err = some e) := by
  refine ⟨?_, ?_, ?_, ?_, ?_⟩
  · intro s bufLen
    by_cases h : s.i < s.len
    · rw [read_lt rd s bufLen h]
    · rw [read_ge rd s bufLen (Nat.le_of_not_lt h)]
  · intro s
    by_cases h : s.i < s.len
    · rw [fill_buf_lt rd s h]
    · have h' := Nat.le_of_not_lt h
      rcases hrd : rd s.reader BUFFER_SIZE with ⟨res, r⟩
      cases res with
      | error e => rw [fill_buf_ge_err rd s e r h' hrd]
      | ok d => rw [fill_buf_ge_ok rd s d r h' hrd]
  · intro s amt
    rfl
  · intro s
    unfold ReadIter.take_last_error
    cases h : s.err with
    | none => exact h
    | some e => rfl
  · intro s
    by_cases h : s.i < s.len
    · left
      rw [next_lt rd s h]
    · have h' := Nat.le_of_not_lt h
      rcases hrd : rd s.reader BUFFER_SIZE with ⟨res, r⟩
      cases res with
      | error e =>
        right
        exact ⟨e, h', rfl, by rw [next_ge_err rd s e r h' hrd]⟩
      | ok d =>
        left
        rw [next_ge_ok rd s d r h' hrd]
        by_cases hd : d.length = 0
        · rw [if_pos hd]
        · rw [if_neg hd]

/-- C10: the invariant `i ≤ len ≤ BUFFER_SIZE` holds after `new` and is
preserved by `next`, `read`, `fill_buf` and — under the documented
precondition that the amount consumed does not exceed the unread length — by
`consume`, for any source respecting the `io::Read` contract. -/
theorem c10_invariant_preserved {σ : Type} (rd : ReadFn σ) (hrd : ReadBounded rd) :
    (∀ r : σ, (ReadIter.new r).Inv) ∧
    (∀ s : ReadIter σ, s.Inv → (ReadIter.next rd s).2.Inv) ∧
    (∀ (s : ReadIter σ) (bufLen : Nat), s.Inv → (ReadIter.read rd s bufLen).2.Inv) ∧
    (∀ s : ReadIter σ, s.Inv → (ReadIter.fill_buf rd s).2.Inv) ∧
    (∀ (s : ReadIter σ) (amt : Nat), s.Inv → amt ≤ s.len - s.i →
      (ReadIter.consume s amt).Inv) := by
  refine ⟨?_, ?_, ?_, ?_, ?_⟩
  · intro r
    exact ⟨Nat.le_refl 0, Nat.zero_le _⟩
  · intro s hs
    by_cases h : s.i < s.len
    · rw [next_lt rd s h]
      exact ⟨h, hs.2⟩
    · have h' := Nat.le_of_not_lt h
      rcases hrd2 : rd s.reader BUFFER_SIZE with ⟨res, r⟩
      cases res with
      | error e =>
        rw [next_ge_err rd s e r h' hrd2]
        exact hs
      | ok d =>
        rw [next_ge_ok rd s d r h' hrd2]
        by_cases hd : d.length = 0
        · rw [if_pos hd]
          exact hs
        · rw [if_neg hd]
          exact ⟨Nat.pos_of_ne_zero hd, hrd s.reader BUFFER_SIZE d (by rw [hrd2])⟩
  · intro s bufLen hs
    by_cases h : s.i < s.len
    · rw [read_lt rd s bufLen h]
      have hmin := Nat.min_le_right bufLen (s.len - s.i)
      have h1 := hs.1
      refine ⟨?_, hs.2⟩
      show s.i + min bufLen (s.len - s.i) ≤ s.len
      omega
    · rw [read_ge rd s bufLen (Nat.le_of_not_lt h)]
      exact hs
  · intro s hs
    by_cases h : s.i < s.len
    · rw [fill_buf_lt rd s h]
      exact hs
    · have h' := Nat.le_of_not_lt h
      rcases hrd2 : rd s.reader BUFFER_SIZE with ⟨res, r⟩
      cases res with
      | error e =>
        rw [fill_buf_ge_err rd s e r h' hrd2]
        exact hs
      | ok d =>
        rw [fill_buf_ge_ok rd s d r h' hrd2]
        exact ⟨Nat.zero_le _, hrd s.reader BUFFER_SIZE d (by rw [hrd2])⟩
  · intro s amt hs hamt
    have h1 := hs.1
    refine ⟨?_, hs.2⟩
    show s.i + amt ≤ s.len
    omega

theorem c10_witness :
    (ReadIter.new (⟨[]⟩ : ScriptSrc)).Inv ∧
    (ReadIter.consume (⟨⟨[]⟩, none, [1, 2], 2, 1⟩ : ReadIter ScriptSrc) 1).Inv :=
  ⟨(c10_invariant_preserved scriptRead scriptRead_bounded).1 ⟨[]⟩,
   (c10_invariant_preserved scriptRead scriptRead_bounded).2.2.2.2
     ⟨⟨[]⟩, none, [1, 2], 2, 1⟩ 1 ⟨by decide, by decide⟩ (by decide)⟩

/-! ## Helper computation lemmas -/

theorem view_mk {σ : Type} (reader : σ) (err : Option Nat) (buffer : List Nat)
    (len i : Nat) :
    ReadIter.view (⟨reader, err, buffer, len, i⟩ : ReadIter σ) =
      if i + len ≤ buffer.length then
        FillResult.ok ((buffer.drop i).take len)
      else
        FillResult.oob :=
  rfl

theorem length_writeBuf (buffer d : List Nat) (h : d.length ≤ buffer.length) :
    (writeBuf buffer d).length = buffer.length := by
  simp [writeBuf, List.length_append, List.length_drop]
  omega
/-- C4: after `fill_buffer` of a 3-byte source read followed by `consume 1`,
a second `fill_buffer` (which performs no source read) returns the slice
`buffer[1 .. 1+3]` — the bytes `[20, 30, 0]`, one stale byte beyond the valid
region — although the unread buffered bytes are `[20, 30]`.  This refutes the
claim that the view is exactly the unread bytes `buffer[cursor .. length]`. -/
theorem c4_view_exposes_stale_byte :
    ((ReadIter.fill_buf scriptRead
        (ReadIter.consume
          (ReadIter.fill_buf scriptRead
            (ReadIter.new (⟨[SrcOutcome.ok [10, 20, 30]]⟩ : ScriptSrc))).2 1)).1 =
      FillResult.ok [20, 30, 0]) ∧
    ((ReadIter.consume
        (ReadIter.fill_buf scriptRead
          (ReadIter.new (⟨[SrcOutcome.ok [10, 20, 30]]⟩ : ScriptSrc))).2 1).unread =
      [20, 30]) := by
  have hrd1 : scriptRead (⟨[SrcOutcome.ok [10, 20, 30]]⟩ : ScriptSrc) BUFFER_SIZE =
      (Except.ok [10, 20, 30], ⟨[]⟩) := rfl
  have h1 : (ReadIter.fill_buf scriptRead
      (ReadIter.new (⟨[SrcOutcome.ok [10, 20, 30]]⟩ : ScriptSrc))).2 =
      ⟨⟨[]⟩, none, [10, 20, 30] ++ (List.replicate BUFFER_SIZE 0).drop 3, 3, 0⟩ := by
    rw [fill_buf_ge_ok scriptRead
      (ReadIter.new (⟨[SrcOutcome.ok [10, 20, 30]]⟩ : ScriptSrc)) [10, 20, 30] ⟨[]⟩
      (Nat.le_refl 0) hrd1]
    rfl
  have h2 : ReadIter.consume
      (⟨⟨[]⟩, none, [10, 20, 30] ++ (List.replicate BUFFER_SIZE 0).drop 3, 3, 0⟩ :
        ReadIter ScriptSrc) 1 =
      ⟨⟨[]⟩, none, [10, 20, 30] ++ (List.replicate BUFFER_SIZE 0).drop 3, 3, 1⟩ :=
    rfl
  constructor
  · rw [h1, h2, fill_buf_lt scriptRead
      (⟨⟨[]⟩, none, [10, 20, 30] ++ (List.replicate BUFFER_SIZE 0).drop 3, 3, 1⟩ :
        ReadIter ScriptSrc) (by decide), view_mk,
      if_pos (by rw [List.length_append, List.length_drop, List.length_replicate]; decide),
      List.drop_replicate]
    rfl
  · rw [h1, h2]
    rfl

/-- C5: after a source read that fills the whole 4096-byte buffer followed by
`consume 1` (a partial consume, well within the documented caller
obligations), the slice `&buffer[i .. i+len]` taken by the next `fill_buffer`
has end index `1 + 4096 > 4096`: an out-of-bounds access (a bounds-check
panic in the code).  This refutes the claim that the slice always lies within
the buffer's capacity. -/
theorem c5_fill_buf_out_of_bounds :
    (ReadIter.fill_buf scriptRead
      (ReadIter.consume
        (ReadIter.fill_buf scriptRead
          (ReadIter.new (⟨[SrcOutcome.ok (List.replicate BUFFER_SIZE 7)]⟩ : ScriptSrc))).2 1)).1 =
      FillResult.oob := by
  have hrd1 : scriptRead (⟨[SrcOutcome.ok (List.replicate BUFFER_SIZE 7)]⟩ : ScriptSrc)
      BUFFER_SIZE = (Except.ok (List.replicate BUFFER_SIZE 7), ⟨[]⟩) := by
    show (Except.ok ((List.replicate BUFFER_SIZE 7).take BUFFER_SIZE),
      (⟨[]⟩ : ScriptSrc)) = _
    rw [List.take_of_length_le (by rw [List.length_replicate])]
  have h1 : (ReadIter.fill_buf scriptRead
      (ReadIter.new (⟨[SrcOutcome.ok (List.replicate BUFFER_SIZE 7)]⟩ : ScriptSrc))).2 =
      ⟨⟨[]⟩, none,
        writeBuf (List.replicate BUFFER_SIZE 0) (List.replicate BUFFER_SIZE 7),
        BUFFER_SIZE, 0⟩ := by
    rw [fill_buf_ge_ok scriptRead
      (ReadIter.new (⟨[SrcOutcome.ok (List.replicate BUFFER_SIZE 7)]⟩ : ScriptSrc))
      (List.replicate BUFFER_SIZE 7) ⟨[]⟩ (Nat.le_refl 0) hrd1]
    rw [List.length_replicate]
    rfl
  have h2 : ReadIter.consume
      (⟨⟨[]⟩, none,
        writeBuf (List.replicate BUFFER_SIZE 0) (List.replicate BUFFER_SIZE 7),
        BUFFER_SIZE, 0⟩ : ReadIter ScriptSrc) 1 =
      ⟨⟨[]⟩, none,
        writeBuf (List.replicate BUFFER_SIZE 0) (List.replicate BUFFER_SIZE 7),
        BUFFER_SIZE, 1⟩ :=
    rfl
  rw [h1, h2, fill_buf_lt scriptRead
    (⟨⟨[]⟩, none,
      writeBuf (List.replicate BUFFER_SIZE 0) (List.replicate BUFFER_SIZE 7),
      BUFFER_SIZE, 1⟩ : ReadIter ScriptSrc) (by decide), view_mk,
    if_neg (by
      rw [length_writeBuf _ _ (by rw [List.length_replicate, List.length_replicate]),
        List.length_replicate]
      decide)]

/-! ## Unfolding lemmas for the drivers -/

theorem drive_succ_none {σ : Type} (rd : ReadFn σ) (fuel : Nat) (s s1 : ReadIter σ)
    (h : ReadIter.next rd s = (none, s1)) :
    drive rd (fuel + 1) s = ([], s1, true) := by
  simp only [drive]
  rw [h]

theorem drive_succ_some {σ : Type} (rd : ReadFn σ) (fuel : Nat) (s s1 : ReadIter σ) (b : Nat)
    (h : ReadIter.next rd s = (some b, s1)) :
    drive rd (fuel + 1) s =
      ((b :: (drive rd fuel s1).1), (drive rd fuel s1).2.1, (drive rd fuel s1).2.2) := by
  simp only [drive]
  rw [h]

theorem readLoop_succ_ok {σ : Type} (rd : ReadFn σ) (sizes : Nat → Nat) (idx fuel : Nat)
    (s s1 : ReadIter σ) (d : List Nat)
    (h : ReadIter.read rd s (sizes idx) = (Except.ok d, s1)) :
    readLoop rd sizes idx (fuel + 1) s =
      if d.length = 0 then
        ([], s1, true)
      else
        ((d ++ (readLoop rd sizes (idx + 1) fuel s1).1),
         (readLoop rd sizes (idx + 1) fuel s1).2.1,
         (readLoop rd sizes (idx + 1) fuel s1).2.2) := by
  simp only [readLoop]
  rw [h]

/-- Draining `m` buffered bytes: with `i + m = len`, `m + fuel` steps of the
iterator first yield `buffer[i .. len]` without touching the source, then
continue from the state with `i = len`. -/
theorem drive_drain {σ : Type} (rd : ReadFn σ) :
    ∀ (m : Nat) (s : ReadIter σ) (fuel : Nat),
      s.len ≤ s.buffer.length → s.i + m = s.len →
      drive rd (m + fuel) s =
        ((s.buffer.drop s.i).take m ++ (drive rd fuel { s with i := s.len }).1,
         (drive rd fuel { s with i := s.len }).2) := by
  intro m
  induction m with
  | zero =>
    intro s fuel h1 h2
    have h2' : s.i = s.len := by omega
    have hs : ({ s with i := s.len } : ReadIter σ) = s := by
      obtain ⟨r, e, b, ln, ii⟩ := s
      have hii : ii = ln := h2'
      rw [hii]
    rw [hs]
    simp
  | succ m ih =>
    intro s fuel h1 h2
    have hlt : s.i < s.len := by omega
    have hnext : ReadIter.next rd s =
        (some (s.buffer.getD s.i 0), { s with i := s.i + 1 }) := next_lt rd s hlt
    have harith : m + 1 + fuel = (m + fuel) + 1 := by omega
    rw [harith, drive_succ_some rd (m + fuel) s _ _ hnext]
    have ih' := ih { s with i := s.i + 1 } fuel h1 (by simp; omega)
    rw [ih']
    have hidx : s.i < s.buffer.length := by omega
    rw [List.drop_eq_getElem_cons hidx, List.take_succ_cons,
      List.getD_eq_getElem s.buffer 0 hidx]
    simp

/-- Main lemma for C1: from any state with an exhausted buffer, driving the
iterator `data.length + 1` steps over an `OracleSrc` yields exactly the
remaining source bytes, terminates with a `none`, and leaves `err`
unchanged. -/
theorem drive_oracle :
    ∀ (m : Nat) (s : ReadIter OracleSrc),
      s.reader.data.length = m → s.buffer.length = BUFFER_SIZE → s.len ≤ s.i →
      (drive oracleRead (m + 1) s).1 = s.reader.data ∧
      (drive oracleRead (m + 1) s).2.2 = true ∧
      (drive oracleRead (m + 1) s).2.1.err = s.err := by
  intro m
  induction m using Nat.strong_induction_on with
  | _ m ih =>
    intro s hm hbuf hle
    cases hd : s.reader.data with
    | nil =>
      have hrd : oracleRead s.reader BUFFER_SIZE =
          (Except.ok [], ⟨[], s.reader.n + 1, s.reader.f⟩) := by
        unfold oracleRead
        rw [hd]
      have hnext : ReadIter.next oracleRead s =
          (none, { s with reader := ⟨[], s.reader.n + 1, s.reader.f⟩ }) := by
        rw [next_ge_ok oracleRead s [] ⟨[], s.reader.n + 1, s.reader.f⟩ hle hrd]
        rfl
      rw [drive_succ_none oracleRead m s _ hnext]
      exact ⟨rfl, rfl, rfl⟩
    | cons a l =>
      set k := min (Nat.max (s.reader.f s.reader.n) 1) (min BUFFER_SIZE (a :: l).length)
        with hk
      have hk1 : 1 ≤ k := by
        rw [hk]
        refine Nat.le_min.mpr ⟨Nat.le_max_right _ 1, Nat.le_min.mpr ⟨by decide, ?_⟩⟩
        simp
      have hkB : k ≤ BUFFER_SIZE := by
        rw [hk]
        exact le_trans (Nat.min_le_right _ _) (Nat.min_le_left _ _)
      have hkm : k ≤ (a :: l).length := by
        rw [hk]
        exact le_trans (Nat.min_le_right _ _) (Nat.min_le_right _ _)
      have hmlen : (a :: l).length = m := by rw [← hm, hd]
      have hlen_take : ((a :: l).take k).length = k := by
        rw [List.length_take]
        exact Nat.min_eq_left hkm
      have hrd : oracleRead s.reader BUFFER_SIZE =
          (Except.ok ((a :: l).take k),
           ⟨(a :: l).drop k, s.reader.n + 1, s.reader.f⟩) := by
        unfold oracleRead
        rw [hd, hk]
      have hnext : ReadIter.next oracleRead s =
          (some ((writeBuf s.buffer ((a :: l).take k)).getD 0 0),
           { s with
             reader := ⟨(a :: l).drop k, s.reader.n + 1, s.reader.f⟩,
             buffer := writeBuf s.buffer ((a :: l).take k),
             len := k,
             i := 1 }) := by
        rw [next_ge_ok oracleRead s ((a :: l).take k)
          ⟨(a :: l).drop k, s.reader.n + 1, s.reader.f⟩ hle hrd]
        rw [if_neg (by rw [hlen_take]; omega)]
        rw [hlen_take]
      have hbuf1 : (writeBuf s.buffer ((a :: l).take k)).length = BUFFER_SIZE := by
        rw [length_writeBuf _ _ (by rw [hlen_take, hbuf]; exact hkB), hbuf]
      have hfuel : m = (k - 1) + ((m - k) + 1) := by omega
      rw [drive_succ_some oracleRead m s _ _ hnext, hfuel]
      rw [drive_drain oracleRead (k - 1)
        { s with
          reader := ⟨(a :: l).drop k, s.reader.n + 1, s.reader.f⟩,
          buffer := writeBuf s.buffer ((a :: l).take k),
          len := k,
          i := 1 }
        ((m - k) + 1)
        (by show k ≤ (writeBuf s.buffer ((a :: l).take k)).length; rw [hbuf1]; exact hkB)
        (by show 1 + (k - 1) = k; omega)]
      have hrec := ih (m - k) (by omega)
        { s with
          reader := ⟨(a :: l).drop k, s.reader.n + 1, s.reader.f⟩,
          buffer := writeBuf s.buffer ((a :: l).take k),
          len := k,
          i := k }
        (by show ((a :: l).drop k).length = m - k; rw [List.length_drop, hmlen])
        hbuf1 (Nat.le_refl k)
      refine ⟨?_, ?_, ?_⟩
      · show (writeBuf s.buffer ((a :: l).take k)).getD 0 0 ::
          (((writeBuf s.buffer ((a :: l).take k)).drop 1).take (k - 1) ++
            (drive oracleRead ((m - k) + 1)
              { s with
                reader := ⟨(a :: l).drop k, s.reader.n + 1, s.reader.f⟩,
                buffer := writeBuf s.buffer ((a :: l).take k),
                len := k,
                i := k }).1) = a :: l
        rw [hrec.1]
        show (writeBuf s.buffer ((a :: l).take k)).getD 0 0 ::
          (((writeBuf s.buffer ((a :: l).take k)).drop 1).take (k - 1) ++
            (a :: l).drop k) = a :: l
        obtain ⟨k', hk'⟩ : ∃ k', k = k' + 1 := ⟨k - 1, by omega⟩
        have hk'l : k' ≤ l.length := by
          have hx := hkm
          rw [hk'] at hx
          simp only [List.length_cons] at hx
          omega
        rw [hk']
        simp only [writeBuf, List.take_succ_cons, List.drop_succ_cons, List.cons_append,
          List.getD_cons_zero, List.drop_one, List.tail_cons, List.drop_zero,
          Nat.add_sub_cancel]
        rw [List.take_append_of_le_length
          (by rw [List.length_take]; exact Nat.le_min.mpr ⟨Nat.le_refl k', hk'l⟩)]
        rw [List.take_take, Nat.min_self, List.take_append_drop]
      · exact hrec.2.1
      · exact hrec.2.2

/-- C1: for every finite byte sequence `S` and every chunking of it (realised
by the oracle `f`), driving the byte iterator from a fresh `ReadIter` yields
exactly the bytes of `S` in order, then signals `none` within `|S| + 1`
steps, and `take_last_error` afterwards returns success. -/
theorem c1_iterator_yields_source (S : List Nat) (f : Nat → Nat) :
    (drive oracleRead (S.length + 1) (ReadIter.new (⟨S, 0, f⟩ : OracleSrc))).1 = S ∧
    (drive oracleRead (S.length + 1) (ReadIter.new (⟨S, 0, f⟩ : OracleSrc))).2.2 = true ∧
    (ReadIter.take_last_error
      (drive oracleRead (S.length + 1) (ReadIter.new (⟨S, 0, f⟩ : OracleSrc))).2.1).1 =
      Except.ok () := by
  have h := drive_oracle S.length (ReadIter.new ⟨S, 0, f⟩) rfl
    (List.length_replicate BUFFER_SIZE 0) (Nat.le_refl 0)
  refine ⟨h.1, h.2.1, ?_⟩
  have herr : (drive oracleRead (S.length + 1)
      (ReadIter.new (⟨S, 0, f⟩ : OracleSrc))).2.1.err = none := h.2.2
  unfold ReadIter.take_last_error
  rw [herr]

/-- Main lemma for C2: from any state with an exhausted internal buffer,
the whole-buffer read loop over an `OracleSrc` returns exactly the remaining
source bytes and stops on a zero-byte result, for any positive caller buffer
sizes and enough fuel. -/
theorem readLoop_oracle :
    ∀ (m fuel idx : Nat) (s : ReadIter OracleSrc) (sizes : Nat → Nat),
      (∀ j, 1 ≤ sizes j) → s.reader.data.length = m → m + 1 ≤ fuel → s.len ≤ s.i →
      (readLoop oracleRead sizes idx fuel s).1 = s.reader.data ∧
      (readLoop oracleRead sizes idx fuel s).2.2 = true := by
  intro m
  induction m using Nat.strong_induction_on with
  | _ m ih =>
    intro fuel idx s sizes hsz hm hf hle
    obtain ⟨fuel', rfl⟩ : ∃ f', fuel = f' + 1 := ⟨fuel - 1, by omega⟩
    cases hd : s.reader.data with
    | nil =>
      have hrd : oracleRead s.reader (sizes idx) =
          (Except.ok [], ⟨[], s.reader.n + 1, s.reader.f⟩) := by
        unfold oracleRead
        rw [hd]
      have hread : ReadIter.read oracleRead s (sizes idx) =
          (Except.ok [], { s with reader := ⟨[], s.reader.n + 1, s.reader.f⟩ }) := by
        rw [read_ge oracleRead s (sizes idx) hle, hrd]
      rw [readLoop_succ_ok oracleRead sizes idx fuel' s _ [] hread]
      exact ⟨rfl, rfl⟩
    | cons a l =>
      set k := min (Nat.max (s.reader.f s.reader.n) 1) (min (sizes idx) (a :: l).length)
        with hk
      have hk1 : 1 ≤ k := by
        rw [hk]
        refine Nat.le_min.mpr ⟨Nat.le_max_right _ 1, Nat.le_min.mpr ⟨hsz idx, ?_⟩⟩
        simp
      have hkm : k ≤ (a :: l).length := by
        rw [hk]
        exact le_trans (Nat.min_le_right _ _) (Nat.min_le_right _ _)
      have hmlen : (a :: l).length = m := by rw [← hm, hd]
      have hlen_take : ((a :: l).take k).length = k := by
        rw [List.length_take]
        exact Nat.min_eq_left hkm
      have hrd : oracleRead s.reader (sizes idx) =
          (Except.ok ((a :: l).take k),
           ⟨(a :: l).drop k, s.reader.n + 1, s.reader.f⟩) := by
        unfold oracleRead
        rw [hd, hk]
      have hread : ReadIter.read oracleRead s (sizes idx) =
          (Except.ok ((a :: l).take k),
           { s with reader := ⟨(a :: l).drop k, s.reader.n + 1, s.reader.f⟩ }) := by
        rw [read_ge oracleRead s (sizes idx) hle, hrd]
      rw [readLoop_succ_ok oracleRead sizes idx fuel' s _ ((a :: l).take k) hread]
      rw [if_neg (by rw [hlen_take]; omega)]
      have hrec := ih (m - k) (by omega) fuel' (idx + 1)
        { s with reader := ⟨(a :: l).drop k, s.reader.n + 1, s.reader.f⟩ } sizes hsz
        (by show ((a :: l).drop k).length = m - k; rw [List.length_drop, hmlen])
        (by omega) hle
      refine ⟨?_, ?_⟩
      · rw [hrec.1]
        show (a :: l).take k ++ (a :: l).drop k = a :: l
        exact List.take_append_drop k (a :: l)
      · exact hrec.2

/-- C2: for every finite byte sequence `S`, any source chunking (oracle `f`)
and any sequence of positive caller buffer sizes, repeatedly calling the
whole-buffer `read` on a fresh `ReadIter` until a call returns no bytes
yields exactly the bytes of `S` — none lost, duplicated or reordered — and
the loop does stop on a zero-byte result within `|S| + 1` calls. -/
theorem c2_read_loop_reconstructs (S : List Nat) (f : Nat → Nat) (sizes : Nat → Nat)
    (hsz : ∀ j, 1 ≤ sizes j) :
    (readLoop oracleRead sizes 0 (S.length + 1)
      (ReadIter.new (⟨S, 0, f⟩ : OracleSrc))).1 = S ∧
    (readLoop oracleRead sizes 0 (S.length + 1)
      (ReadIter.new (⟨S, 0, f⟩ : OracleSrc))).2.2 = true :=
  readLoop_oracle S.length (S.length + 1) 0 (ReadIter.new ⟨S, 0, f⟩) sizes hsz rfl
    (Nat.le_refl _) (Nat.le_refl 0)

theorem c2_witness :
    (∀ j : Nat, 1 ≤ (fun _ => 2 : Nat → Nat) j) ∧
    ((readLoop oracleRead (fun _ => 2) 0 4
        (ReadIter.new (⟨[1, 2, 3], 0, fun _ => 5⟩ : OracleSrc))).1 = [1, 2, 3] ∧
     (readLoop oracleRead (fun _ => 2) 0 4
        (ReadIter.new (⟨[1, 2, 3], 0, fun _ => 5⟩ : OracleSrc))).2.2 = true) :=
  ⟨fun _ => (by decide : (1 : Nat) ≤ 2),
   c2_read_loop_reconstructs [1, 2, 3] (fun _ => 5) (fun _ => 2)
     (fun _ => (by decide : (1 : Nat) ≤ 2))⟩
